import Mathlib

/-!
Verification of the tile-editor / character-animation runtime.

The development shallowly embeds the program's core:

* `CharacterSprite` and its texture-rect selection and per-render frame
  advance (`src/sprite.cpp`);
* the editor's click snapping, tile placement/removal, event loop, and
  frame pacing (`src/game.cpp`, class `Game`);
* the polar-to-Cartesian character movement (`src/game.cpp`, `Vec`,
  `Character::update`).

Machine floats are modelled by `ℚ` where the program only ever compares,
adds and scales grid-derived values (all such values are exactly
representable), and by `ℝ` for the trigonometric movement code.

The repository's `tile` module (providing `Renderable` / `RendererBuilder`)
and the evolved `Gui` accessor interface used by `game.cpp` are not part of
the source tree; the few facts needed from them (placed-tile identity,
editor selection flags) are modelled from the spec and marked as such.
-/

namespace Cpp20Test

/-- `SDL_FRect`: a rectangle into the texture atlas (float fields modelled
by `ℚ`). -/
structure SDLFRect where
  x : ℚ
  y : ℚ
  w : ℚ
  h : ℚ
deriving DecidableEq, Repr

/-- The state of `CharacterSprite` (`src/sprite.cpp`): base atlas rectangle
`sourceRect_`, animation frame `index`, the `hit` / `running` / `direction`
flags and the capability flags `_canRun` / `_canHit`. -/
structure CharacterSprite where
  sourceRect : SDLFRect
  index : ℕ
  hit : Bool
  running : Bool
  direction : Bool
  canRun : Bool
  canHit : Bool
deriving DecidableEq, Repr

namespace CharacterSprite

/-- `CharacterSprite::CharacterSprite` (src/sprite.cpp:52-55). -/
def mkSprite (rect : SDLFRect) (canRun canHit : Bool) : CharacterSprite :=
  ⟨rect, 0, false, false, false, canRun, canHit⟩

/-- `CharacterSprite::getIdleTextureRect` (src/sprite.cpp:57-60). -/
def getIdleTextureRect (s : CharacterSprite) : SDLFRect :=
  ⟨s.sourceRect.x + s.index * s.sourceRect.w, s.sourceRect.y,
   s.sourceRect.w, s.sourceRect.h⟩

/-- `CharacterSprite::getRunTextureRect` (src/sprite.cpp:62-65). -/
def getRunTextureRect (s : CharacterSprite) : SDLFRect :=
  ⟨s.sourceRect.x + (s.index + 4) * s.sourceRect.w, s.sourceRect.y,
   s.sourceRect.w, s.sourceRect.h⟩

/-- `CharacterSprite::getHitTextureRect` (src/sprite.cpp:67-71). -/
def getHitTextureRect (s : CharacterSprite) : SDLFRect :=
  ⟨s.sourceRect.x + (s.index + 8) * s.sourceRect.w, s.sourceRect.y,
   s.sourceRect.w, s.sourceRect.h⟩

/-- `CharacterSprite::getTextureRect` (src/sprite.cpp:73-82); it returns
the selected source rectangle and the updated sprite state (querying a hit
cell clears the `hit` flag). -/
def getTextureRect (s : CharacterSprite) : SDLFRect × CharacterSprite :=
  if s.canHit && s.hit then (s.getHitTextureRect, { s with hit := false })
  else if s.canRun && s.running then (s.getRunTextureRect, s)
  else (s.getIdleTextureRect, s)

/-- `CharacterSprite::getDestRect` (src/sprite.cpp:84-86). -/
def getDestRect (s : CharacterSprite) (x y : ℚ) : SDLFRect :=
  ⟨x, y, s.sourceRect.w * 2, s.sourceRect.h * 2⟩

/-- `CharacterSprite::setHit` (src/sprite.cpp:31). -/
def setHit (s : CharacterSprite) : CharacterSprite := { s with hit := true }

/-- `CharacterSprite::setRunning` (src/sprite.cpp:32-35). -/
def setRunning (s : CharacterSprite) (dir : Bool) : CharacterSprite :=
  { s with running := true, direction := dir }

/-- `CharacterSprite::setIdle` (src/sprite.cpp:36). -/
def setIdle (s : CharacterSprite) : CharacterSprite := { s with running := false }

/-- `CharacterSprite::incIndex` (src/sprite.cpp:88): `index = ++index % 4`. -/
def incIndex (s : CharacterSprite) : CharacterSprite :=
  { s with index := (s.index + 1) % 4 }

end CharacterSprite

/-- One textured-quad draw call: source rectangle, destination rectangle,
and whether the draw is horizontally mirrored
(`SDL_RenderTextureRotated` with `SDL_FLIP_HORIZONTAL` vs `SDL_RenderTexture`). -/
structure DrawCall where
  src : SDLFRect
  dst : SDLFRect
  flipHorizontal : Bool
deriving DecidableEq, Repr

namespace CharacterSprite

/-- `CharacterSprite::render` (src/sprite.cpp:90-104): advance the frame
index when the global frame count is even, compute the destination and
source rectangles, and issue one draw call (mirrored when `direction`). -/
def render (s : CharacterSprite) (x y : ℚ) (frameCount : ℕ) (winHeight : ℚ) :
    DrawCall × CharacterSprite :=
  let s1 := if frameCount % 2 = 0 then s.incIndex else s
  let destRect := s1.getDestRect x (winHeight - (y + s1.sourceRect.h) * 2)
  let q := s1.getTextureRect
  (⟨q.1, destRect, q.2.direction⟩, q.2)

/-- Drive `render` on `n` consecutive global frame counts starting at
`start`, returning the final sprite state. -/
def driveRenders (x y winHeight : ℚ) : CharacterSprite → ℕ → ℕ → CharacterSprite
  | s, _, 0 => s
  | s, start, n + 1 => driveRenders x y winHeight (s.render x y start winHeight).2 (start + 1) n

end CharacterSprite

/-- Number of even values among `start, start+1, …, start+n-1`. -/
def evenCount : ℕ → ℕ → ℕ
  | _, 0 => 0
  | start, n + 1 => (if start % 2 = 0 then 1 else 0) + evenCount (start + 1) n

lemma evenCount_mod (start n : ℕ) : evenCount start n = evenCount (start % 2) n := by
  induction n generalizing start with
  | zero => rfl
  | succ n ih =>
    have h1 : start % 2 % 2 = start % 2 := by omega
    have h2 : (start + 1) % 2 = (start % 2 + 1) % 2 := by omega
    simp only [evenCount, h1]
    rw [ih (start + 1), ih (start % 2 + 1), h2]

lemma evenCount_ten (start : ℕ) : evenCount start 10 = 5 := by
  rcases Nat.mod_two_eq_zero_or_one start with h | h <;>
    rw [evenCount_mod, h] <;> decide

namespace CharacterSprite

lemma getTextureRect_index (s : CharacterSprite) : s.getTextureRect.2.index = s.index := by
  unfold getTextureRect
  split <;> [rfl; split <;> rfl]

lemma render_index (s : CharacterSprite) (x y winHeight : ℚ) (fc : ℕ) :
    (s.render x y fc winHeight).2.index =
      if fc % 2 = 0 then (s.index + 1) % 4 else s.index := by
  unfold render
  split <;> simp [getTextureRect_index, incIndex]

lemma driveRenders_index (x y winHeight : ℚ) (n : ℕ) :
    ∀ (start : ℕ) (s : CharacterSprite), s.index < 4 →
      (driveRenders x y winHeight s start n).index = (s.index + evenCount start n) % 4 := by
  induction n with
  | zero =>
    intro start s h
    simp [driveRenders, evenCount, Nat.mod_eq_of_lt h]
  | succ n ih =>
    intro start s h
    have hstep := render_index s x y winHeight start
    have hlt : (s.render x y start winHeight).2.index < 4 := by
      rw [hstep]; split <;> omega
    have := ih (start + 1) ((s.render x y start winHeight).2) hlt
    simp only [driveRenders, this, hstep, evenCount]
    split <;> omega

lemma incIndex_direction (s : CharacterSprite) (b : Bool) :
    ({ s with direction := b } : CharacterSprite).incIndex =
      { s.incIndex with direction := b } := rfl

lemma getTextureRect_fst_dir (s : CharacterSprite) (b : Bool) :
    ({ s with direction := b } : CharacterSprite).getTextureRect.1 =
      s.getTextureRect.1 := by
  unfold CharacterSprite.getTextureRect
  dsimp only
  split_ifs <;> rfl

lemma render_out_dir (s : CharacterSprite) (b : Bool) (x y winHeight : ℚ) (fc : ℕ) :
    (({ s with direction := b } : CharacterSprite).render x y fc winHeight).1.src =
        (s.render x y fc winHeight).1.src ∧
      (({ s with direction := b } : CharacterSprite).render x y fc winHeight).1.dst =
        (s.render x y fc winHeight).1.dst := by
  unfold CharacterSprite.render
  dsimp only
  by_cases hfc : fc % 2 = 0
  · simp only [if_pos hfc, incIndex_direction]
    exact ⟨getTextureRect_fst_dir _ b, rfl⟩
  · simp only [if_neg hfc]
    exact ⟨getTextureRect_fst_dir _ b, rfl⟩

end CharacterSprite

/-- C5: after `setHit` on a sprite with the hit capability, the next
`getTextureRect` query returns the Hit cell and clears the `hit` flag in
that same query, so the following query (absent a new `setHit`) yields a
Running or Idle cell — Hit never persists across two consecutive queries. -/
theorem c5_hit_is_one_shot (s : CharacterSprite) (h : s.canHit = true) :
    (s.setHit.getTextureRect.1 = s.setHit.getHitTextureRect ∧
      s.setHit.getTextureRect.2.hit = false) ∧
    (s.setHit.getTextureRect.2.getTextureRect.1 =
        s.setHit.getTextureRect.2.getRunTextureRect ∨
      s.setHit.getTextureRect.2.getTextureRect.1 =
        s.setHit.getTextureRect.2.getIdleTextureRect) ∧
    s.setHit.getTextureRect.2.getTextureRect.2.hit = false := by
  have h1 : s.setHit.getTextureRect =
      (s.setHit.getHitTextureRect, { s.setHit with hit := false }) := by
    unfold CharacterSprite.getTextureRect
    simp [CharacterSprite.setHit, h]
  refine ⟨⟨by rw [h1], by rw [h1]⟩, ?_, ?_⟩ <;> rw [h1] <;>
    unfold CharacterSprite.getTextureRect <;>
    simp <;> split <;> simp_all

theorem c5_hit_is_one_shot_witness :
    (CharacterSprite.mkSprite ⟨128, 68, 28, 16⟩ true true).canHit = true ∧
    ((CharacterSprite.mkSprite ⟨128, 68, 28, 16⟩ true true).setHit.getTextureRect.1 =
        (CharacterSprite.mkSprite ⟨128, 68, 28, 16⟩ true true).setHit.getHitTextureRect ∧
      (CharacterSprite.mkSprite ⟨128, 68, 28, 16⟩ true
          true).setHit.getTextureRect.2.hit = false) ∧
    ((CharacterSprite.mkSprite ⟨128, 68, 28, 16⟩ true
          true).setHit.getTextureRect.2.getTextureRect.1 =
        (CharacterSprite.mkSprite ⟨128, 68, 28, 16⟩ true
            true).setHit.getTextureRect.2.getRunTextureRect ∨
      (CharacterSprite.mkSprite ⟨128, 68, 28, 16⟩ true
          true).setHit.getTextureRect.2.getTextureRect.1 =
        (CharacterSprite.mkSprite ⟨128, 68, 28, 16⟩ true
            true).setHit.getTextureRect.2.getIdleTextureRect) ∧
    (CharacterSprite.mkSprite ⟨128, 68, 28, 16⟩ true
        true).setHit.getTextureRect.2.getTextureRect.2.hit = false :=
  ⟨rfl, c5_hit_is_one_shot (CharacterSprite.mkSprite ⟨128, 68, 28, 16⟩ true true) rfl⟩

/-- C6: the animation frame index cycles through `0..3` with period 4; a
render advances it by one (mod 4) exactly when the global frame count is
even and leaves it unchanged when odd; rendering on 10 consecutive global
frame counts advances it exactly 5 times, i.e. by 5 mod 4. -/
theorem c6_frame_index_advance (s : CharacterSprite) (x y winHeight : ℚ)
    (fc start : ℕ) (h : s.index < 4) :
    ((s.render x y fc winHeight).2.index =
        if fc % 2 = 0 then (s.index + 1) % 4 else s.index) ∧
    (s.render x y fc winHeight).2.index < 4 ∧
    evenCount start 10 = 5 ∧
    (CharacterSprite.driveRenders x y winHeight s start 10).index = (s.index + 5) % 4 := by
  refine ⟨CharacterSprite.render_index s x y winHeight fc, ?_, evenCount_ten start, ?_⟩
  · rw [CharacterSprite.render_index s x y winHeight fc]
    split <;> omega
  · rw [CharacterSprite.driveRenders_index x y winHeight 10 start s h, evenCount_ten]

theorem c6_frame_index_advance_witness :
    (CharacterSprite.mkSprite ⟨128, 68, 28, 16⟩ true true).index < 4 ∧
    (((CharacterSprite.mkSprite ⟨128, 68, 28, 16⟩ true true).render 0 0 0 720).2.index =
        if 0 % 2 = 0 then
          ((CharacterSprite.mkSprite ⟨128, 68, 28, 16⟩ true true).index + 1) % 4
        else (CharacterSprite.mkSprite ⟨128, 68, 28, 16⟩ true true).index) ∧
    ((CharacterSprite.mkSprite ⟨128, 68, 28, 16⟩ true true).render 0 0 0 720).2.index < 4 ∧
    evenCount 0 10 = 5 ∧
    (CharacterSprite.driveRenders 0 0 720
        (CharacterSprite.mkSprite ⟨128, 68, 28, 16⟩ true true) 0 10).index =
      ((CharacterSprite.mkSprite ⟨128, 68, 28, 16⟩ true true).index + 5) % 4 :=
  ⟨by decide,
   c6_frame_index_advance (CharacterSprite.mkSprite ⟨128, 68, 28, 16⟩ true true)
     0 0 720 0 0 (by decide)⟩

/-- C7: the sampled atlas cell is the base origin offset horizontally by
`index` cell-widths (Idle), `index + 4` (Running) and `index + 8` (Hit)
with `y`, `w`, `h` unchanged, and the facing flag only selects horizontal
mirroring of the destination draw — it never changes the sampled source
cell nor the destination rectangle. -/
theorem c7_atlas_cell_selection (s : CharacterSprite) (b : Bool) (x y winHeight : ℚ)
    (fc : ℕ) :
    s.getIdleTextureRect =
      ⟨s.sourceRect.x + s.index * s.sourceRect.w, s.sourceRect.y,
       s.sourceRect.w, s.sourceRect.h⟩ ∧
    s.getRunTextureRect =
      ⟨s.sourceRect.x + (s.index + 4) * s.sourceRect.w, s.sourceRect.y,
       s.sourceRect.w, s.sourceRect.h⟩ ∧
    s.getHitTextureRect =
      ⟨s.sourceRect.x + (s.index + 8) * s.sourceRect.w, s.sourceRect.y,
       s.sourceRect.w, s.sourceRect.h⟩ ∧
    ({ s with direction := b }.render x y fc winHeight).1.src =
      (s.render x y fc winHeight).1.src ∧
    ({ s with direction := b }.render x y fc winHeight).1.dst =
      (s.render x y fc winHeight).1.dst ∧
    (s.render x y fc winHeight).1.flipHorizontal = s.direction := by
  refine ⟨rfl, rfl, rfl, (CharacterSprite.render_out_dir s b x y winHeight fc).1,
    (CharacterSprite.render_out_dir s b x y winHeight fc).2, ?_⟩
  unfold CharacterSprite.render CharacterSprite.getTextureRect
  dsimp only
  split_ifs <;> rfl

/-! ## The tile map and the editor (`src/game.cpp`) -/

/-- Truncation toward zero, as C++ `std::fmod` truncates the quotient. -/
def ratTrunc (q : ℚ) : ℤ := if q < 0 then ⌈q⌉ else ⌊q⌋

/-- C++ `std::fmod x y = x - y * trunc (x / y)` on the `ℚ` model of floats. -/
def cppFmod (x y : ℚ) : ℚ := x - y * ratTrunc (x / y)

/-- `Game::gridSize` (src/game.cpp:172). -/
def gridSize : ℚ := 16

/-- The cell point computed by `Game::processEventEditor` from raw click
coordinates (src/game.cpp:366-370 and 388-392):
`point.x = (x - fmod(x, gridSize*2)) / 2`,
`point.y = (y - fmod(y, gridSize*2) + gridSize*2) / 2`. -/
def snapPoint (x y : ℚ) : ℚ × ℚ :=
  ((x - cppFmod x (gridSize * 2)) / 2,
   (y - cppFmod y (gridSize * 2) + gridSize * 2) / 2)

/-- The cursor-indicator point computed by `Game::processEvent`
(src/game.cpp:273-274): each mouse coordinate minus its remainder mod
`gridSize * 2`. -/
def cursorSnap (m : ℚ × ℚ) : ℚ × ℚ :=
  (m.1 - cppFmod m.1 (gridSize * 2), m.2 - cppFmod m.2 (gridSize * 2))

/-- The spec's description of raw-to-cell snapping: flooring each raw
coordinate down to the nearest multiple of the tile pitch (stated for
comparison with the code's `snapPoint`). -/
def specSnap (pitch : ℚ) (x y : ℚ) : ℚ × ℚ :=
  (x - cppFmod x pitch, y - cppFmod y pitch)

/-- A placed tile, as stored in `Game::map_` / `Game::mapWall_`
(`std::unique_ptr<Renderable>` pointing at a tile built from the selected
`RendererBuilder`): its cell position (`setPos`), the index of the tile
definition it was built from, and the wall `level` flag (`setLevel`). -/
structure PlacedTile where
  pos : ℚ × ℚ
  tileIdx : ℕ
  level : Bool
deriving DecidableEq, Repr

/-- Modelled from the spec: the `tile` module imported by `game.cpp` is not
in the source tree; per the spec, placed-tile identity is its cell
coordinate, so `Renderable::isSamePos` compares the stored cell coordinate
with the given point. -/
def PlacedTile.isSamePos (t : PlacedTile) (p : ℚ × ℚ) : Bool := t.pos = p

/-- `std::erase_if(layer, [point](auto &tile){ return tile->isSamePos(point); })`:
keep exactly the tiles not at `p`. -/
def eraseAt (l : List PlacedTile) (p : ℚ × ℚ) : List PlacedTile :=
  l.filter fun t => !(t.isSamePos p)

/-- SDL mouse-button codes. -/
def SDL_BUTTON_LEFT : ℕ := 1
/-- SDL mouse-button codes. -/
def SDL_BUTTON_RIGHT : ℕ := 3
/-- SDL keycode for the `A` key. -/
def SDLK_A : ℕ := 97

/-- The SDL events the event loop of `Game::processEvent` distinguishes. A
window-close request is modelled by whether its window id matches the
game's window. -/
inductive EventKind
  | quit
  | windowCloseThis
  | windowCloseOther
  | mouseButtonDown (button : ℕ) (x y : ℚ)
  | keyDown (key : ℕ)
  | keyUp (key : ℕ)
  | other
deriving DecidableEq, Repr

/-- One polled SDL event together with whether the overlay UI
(`Gui::processEvent`, i.e. ImGui) claims it. -/
structure Event where
  kind : EventKind
  guiClaimed : Bool
deriving DecidableEq, Repr

/-- The mutable state of `Game` touched by event processing, together with
the selection state read off the overlay `Gui`. The `Gui` accessor
interface used by `game.cpp` (`isEditorMode`, `isWall`, `isLevel`,
`getTileIndex`, `getCharacterIndex`) is not in the source tree; modelled
from the spec as the editor's mode/selection flags, constant during one
event dispatch. -/
structure GameState where
  done : Bool
  map : List PlacedTile
  mapWall : List PlacedTile
  showTileSelector : Bool
  tileCursorPos : ℚ × ℚ
  characters : List CharacterSprite
  editorMode : Bool
  isWall : Bool
  isLevel : Bool
  tileIndex : ℕ
  characterIndex : ℕ
deriving Repr

/-- Replace the `i`-th element of a list by `f` of it (models mutating
`characters_[i]` in place). -/
def modifyAt (l : List α) (i : ℕ) (f : α → α) : List α :=
  match l.get? i with
  | some a => l.set i (f a)
  | none => l

namespace Game

/-- `Game::processEventEditor` (src/game.cpp:363-404): on a left
mouse-button-down, snap the click, build the selected tile at the snapped
point (setting the level flag on the wall layer), erase any tile at that
point from the selected layer and push the new one; on a right
mouse-button-down, erase any tile at the snapped point from the selected
layer; anything else is not consumed. Returns whether the event was
consumed, with the updated state. -/
def processEventEditor (s : GameState) (e : EventKind) : Bool × GameState :=
  match e with
  | .mouseButtonDown b x y =>
    if b = SDL_BUTTON_LEFT then
      let point := snapPoint x y
      if s.isWall then
        let tile : PlacedTile := ⟨point, s.tileIndex, s.isLevel⟩
        (true, { s with mapWall := eraseAt s.mapWall point ++ [tile] })
      else
        let tile : PlacedTile := ⟨point, s.tileIndex, false⟩
        (true, { s with map := eraseAt s.map point ++ [tile] })
    else if b = SDL_BUTTON_RIGHT then
      let point := snapPoint x y
      if s.isWall then (true, { s with mapWall := eraseAt s.mapWall point })
      else (true, { s with map := eraseAt s.map point })
    else (false, s)
  | _ => (false, s)

/-- `Game::processEventCharacter` (src/game.cpp:406-413): a key-down of
`A` sets the hit flag on the selected character sprite. -/
def processEventCharacter (s : GameState) (e : EventKind) : Bool × GameState :=
  match e with
  | .keyDown k =>
    if k = SDLK_A then
      (true,
       { s with characters := modifyAt s.characters s.characterIndex CharacterSprite.setHit })
    else (false, s)
  | _ => (false, s)

/-- `Game::processEvent` (src/game.cpp:259-290): drain the event queue.
Gui-claimed events hide the tile selector and are skipped; otherwise the
cursor indicator is updated from the instantaneous mouse position, quit and
matching window-close events set `done`, and in editor mode a consumed
editor action returns immediately from the loop — the events not yet
polled are returned as the remaining queue. Otherwise character key
handling runs and the loop continues. -/
def processEvent (mousePos : ℚ × ℚ) : List Event → GameState → GameState × List Event
  | [], s => (s, [])
  | e :: rest, s =>
    if e.guiClaimed then
      processEvent mousePos rest { s with showTileSelector := false }
    else
      let s1 := { s with showTileSelector := true, tileCursorPos := cursorSnap mousePos }
      let s2 := if e.kind = .quit then { s1 with done := true } else s1
      let s3 := if e.kind = .windowCloseThis then { s2 with done := true } else s2
      let q := if s3.editorMode then processEventEditor s3 e.kind else (false, s3)
      if q.1 then (q.2, rest)
      else processEvent mousePos rest (processEventCharacter q.2 e.kind).2

end Game

/-- The layer mutation performed by a left editor click (src/game.cpp:372-383):
erase any tile at the snapped point, then push the newly built tile. -/
def placeTile (l : List PlacedTile) (point : ℚ × ℚ) (tidx : ℕ) (lvl : Bool) :
    List PlacedTile :=
  eraseAt l point ++ [⟨point, tidx, lvl⟩]

/-- A sequence of left editor clicks at the same point, selecting tile
definition `tidx` for each click in turn. -/
def placeSeq (l : List PlacedTile) (point : ℚ × ℚ) (lvl : Bool) : List ℕ → List PlacedTile
  | [] => l
  | tidx :: rest => placeSeq (placeTile l point tidx lvl) point lvl rest

/-- Number of tiles of a layer at a given point. -/
def countAt (l : List PlacedTile) (p : ℚ × ℚ) : ℕ :=
  l.countP fun t => t.isSamePos p

/-- The layer invariant: at most one tile per cell. -/
def AtMostOne (l : List PlacedTile) : Prop := ∀ p, countAt l p ≤ 1

lemma filter_eraseAt (l : List PlacedTile) (p : ℚ × ℚ) :
    (eraseAt l p).filter (fun t => t.isSamePos p) = [] := by
  simp only [eraseAt, List.filter_filter]
  have : ∀ t : PlacedTile, (t.isSamePos p && !t.isSamePos p) = false := by
    intro t; cases t.isSamePos p <;> rfl
  simp [this]

lemma filter_placeTile (l : List PlacedTile) (p : ℚ × ℚ) (tidx : ℕ) (lvl : Bool) :
    (placeTile l p tidx lvl).filter (fun t => t.isSamePos p) =
      [(⟨p, tidx, lvl⟩ : PlacedTile)] := by
  simp only [placeTile, List.filter_append, filter_eraseAt, List.nil_append]
  simp [PlacedTile.isSamePos]

lemma filter_placeSeq (p : ℚ × ℚ) (lvl : Bool) :
    ∀ (idxs : List ℕ) (l : List PlacedTile) (h : idxs ≠ []),
      (placeSeq l p lvl idxs).filter (fun t => t.isSamePos p) =
        [(⟨p, idxs.getLast h, lvl⟩ : PlacedTile)]
  | [], _, h => absurd rfl h
  | [tidx], l, _ => filter_placeTile l p tidx lvl
  | tidx :: t2 :: rest, l, _ => by
      have := filter_placeSeq p lvl (t2 :: rest) (placeTile l p tidx lvl) (by simp)
      simpa [placeSeq, List.getLast] using this

lemma countAt_eraseAt_le (l : List PlacedTile) (p q : ℚ × ℚ) :
    countAt (eraseAt l p) q ≤ countAt l q :=
  (List.filter_sublist l).countP_le _

lemma countAt_placeTile (l : List PlacedTile) (p q : ℚ × ℚ) (tidx : ℕ) (lvl : Bool)
    (h : AtMostOne l) : countAt (placeTile l p tidx lvl) q ≤ 1 := by
  by_cases hpq : q = p
  · subst hpq
    have := congrArg List.length (filter_placeTile l q tidx lvl)
    simpa [countAt, List.countP_eq_length_filter] using this.le
  · have h1 : countAt (placeTile l p tidx lvl) q =
        countAt (eraseAt l p) q + countAt [(⟨p, tidx, lvl⟩ : PlacedTile)] q := by
      simp [countAt, placeTile, List.countP_append]
    have h2 : countAt [(⟨p, tidx, lvl⟩ : PlacedTile)] q = 0 := by
      simp [countAt, PlacedTile.isSamePos]
      exact fun hc => absurd hc.symm hpq
    have h3 := countAt_eraseAt_le l p q
    have h4 := h q
    omega

/-- C3 (amended only in cell value elsewhere; this is as claimed): a left
editor click erases any tile at the snapped cell before inserting the new
one, so after any nonempty sequence of placements at the same cell the
layer holds exactly one entry there — the most recently selected tile
definition — and both placement and removal preserve the at-most-one-tile-
per-cell invariant of the layer. -/
theorem c3_place_last_write_wins (s : GameState) (x y : ℚ) (l : List PlacedTile)
    (p : ℚ × ℚ) (tidx : ℕ) (lvl : Bool) (idxs : List ℕ) (hne : idxs ≠ [])
    (hground : s.isWall = false) (hinv : AtMostOne l) :
    (Game.processEventEditor s (.mouseButtonDown SDL_BUTTON_LEFT x y)).1 = true ∧
    (Game.processEventEditor s (.mouseButtonDown SDL_BUTTON_LEFT x y)).2.map =
      placeTile s.map (snapPoint x y) s.tileIndex false ∧
    (placeTile l p tidx lvl).filter (fun t => t.isSamePos p) =
      [(⟨p, tidx, lvl⟩ : PlacedTile)] ∧
    countAt (placeTile l p tidx lvl) p = 1 ∧
    (placeSeq l p lvl idxs).filter (fun t => t.isSamePos p) =
      [(⟨p, idxs.getLast hne, lvl⟩ : PlacedTile)] ∧
    AtMostOne (placeTile l p tidx lvl) ∧
    AtMostOne (eraseAt l p) := by
  refine ⟨?_, ?_, filter_placeTile l p tidx lvl, ?_, filter_placeSeq p lvl idxs l hne,
    fun q => countAt_placeTile l p q tidx lvl hinv, fun q =>
      le_trans (countAt_eraseAt_le l p q) (hinv q)⟩
  · simp [Game.processEventEditor, SDL_BUTTON_LEFT, hground]
  · simp [Game.processEventEditor, SDL_BUTTON_LEFT, hground, placeTile]
  · have := congrArg List.length (filter_placeTile l p tidx lvl)
    simpa [countAt, List.countP_eq_length_filter] using this.le.antisymm
      (by simpa [countAt, List.countP_eq_length_filter] using this.ge)

theorem c3_place_last_write_wins_witness :
    ([0, 1] : List ℕ) ≠ [] ∧
    (⟨false, [], [], false, (0, 0), [], true, false, false, 0, 0⟩ : GameState).isWall
        = false ∧
    AtMostOne [] ∧
    ((Game.processEventEditor
          ⟨false, [], [], false, (0, 0), [], true, false, false, 0, 0⟩
          (.mouseButtonDown SDL_BUTTON_LEFT 40 40)).1 = true ∧
      (Game.processEventEditor
          ⟨false, [], [], false, (0, 0), [], true, false, false, 0, 0⟩
          (.mouseButtonDown SDL_BUTTON_LEFT 40 40)).2.map =
        placeTile
          (⟨false, [], [], false, (0, 0), [], true, false, false, 0, 0⟩ :
              GameState).map
          (snapPoint 40 40)
          (⟨false, [], [], false, (0, 0), [], true, false, false, 0, 0⟩ :
              GameState).tileIndex false ∧
      (placeTile [] ((0 : ℚ), (0 : ℚ)) 0 false).filter
          (fun t => t.isSamePos ((0 : ℚ), (0 : ℚ))) =
        [(⟨((0 : ℚ), (0 : ℚ)), 0, false⟩ : PlacedTile)] ∧
      countAt (placeTile [] ((0 : ℚ), (0 : ℚ)) 0 false) ((0 : ℚ), (0 : ℚ)) = 1 ∧
      (placeSeq [] ((0 : ℚ), (0 : ℚ)) false [0, 1]).filter
          (fun t => t.isSamePos ((0 : ℚ), (0 : ℚ))) =
        [(⟨((0 : ℚ), (0 : ℚ)), ([0, 1] : List ℕ).getLast (by decide), false⟩ :
            PlacedTile)] ∧
      AtMostOne (placeTile [] ((0 : ℚ), (0 : ℚ)) 0 false) ∧
      AtMostOne (eraseAt [] ((0 : ℚ), (0 : ℚ)))) :=
  ⟨by decide, rfl, fun p => by simp [countAt],
   c3_place_last_write_wins
     ⟨false, [], [], false, (0, 0), [], true, false, false, 0, 0⟩ 40 40 []
     ((0 : ℚ), (0 : ℚ)) 0 false [0, 1] (by decide) rfl
     (fun p => by simp [countAt])⟩

/-- C9: a right editor click erases the tile at the snapped cell from the
selected layer; erasure is a no-op when no tile is present there — in
particular removing (5,5) from an empty wall layer leaves it unchanged —
and it is a total operation (no error path). -/
theorem c9_remove_missing_is_noop (s : GameState) (x y : ℚ) (l : List PlacedTile)
    (p : ℚ × ℚ) (hwall : s.isWall = true)
    (habsent : ∀ t ∈ l, t.isSamePos p = false) :
    (Game.processEventEditor s (.mouseButtonDown SDL_BUTTON_RIGHT x y)).1 = true ∧
    (Game.processEventEditor s (.mouseButtonDown SDL_BUTTON_RIGHT x y)).2.mapWall =
      eraseAt s.mapWall (snapPoint x y) ∧
    (Game.processEventEditor s (.mouseButtonDown SDL_BUTTON_RIGHT x y)).2.map =
      s.map ∧
    eraseAt l p = l ∧
    eraseAt ([] : List PlacedTile) p = [] := by
  refine ⟨?_, ?_, ?_, ?_, rfl⟩
  · simp [Game.processEventEditor, SDL_BUTTON_LEFT, SDL_BUTTON_RIGHT, hwall]
  · simp [Game.processEventEditor, SDL_BUTTON_LEFT, SDL_BUTTON_RIGHT, hwall]
  · simp [Game.processEventEditor, SDL_BUTTON_LEFT, SDL_BUTTON_RIGHT, hwall]
  · exact List.filter_eq_self.mpr fun t ht => by rw [habsent t ht]; rfl

theorem c9_remove_missing_is_noop_witness :
    (⟨false, [], [], false, (0, 0), [], true, true, false, 0, 0⟩ : GameState).isWall
        = true ∧
    (∀ t ∈ ([] : List PlacedTile), t.isSamePos ((5 : ℚ), (5 : ℚ)) = false) ∧
    ((Game.processEventEditor
          ⟨false, [], [], false, (0, 0), [], true, true, false, 0, 0⟩
          (.mouseButtonDown SDL_BUTTON_RIGHT 5 5)).1 = true ∧
      (Game.processEventEditor
          ⟨false, [], [], false, (0, 0), [], true, true, false, 0, 0⟩
          (.mouseButtonDown SDL_BUTTON_RIGHT 5 5)).2.mapWall =
        eraseAt
          (⟨false, [], [], false, (0, 0), [], true, true, false, 0, 0⟩ :
              GameState).mapWall (snapPoint 5 5) ∧
      (Game.processEventEditor
          ⟨false, [], [], false, (0, 0), [], true, true, false, 0, 0⟩
          (.mouseButtonDown SDL_BUTTON_RIGHT 5 5)).2.map =
        (⟨false, [], [], false, (0, 0), [], true, true, false, 0, 0⟩ :
            GameState).map ∧
      eraseAt ([] : List PlacedTile) ((5 : ℚ), (5 : ℚ)) = [] ∧
      eraseAt ([] : List PlacedTile) ((5 : ℚ), (5 : ℚ)) = []) :=
  ⟨rfl, fun t ht => absurd ht (List.not_mem_nil t),
   c9_remove_missing_is_noop
     ⟨false, [], [], false, (0, 0), [], true, true, false, 0, 0⟩ 5 5 []
     ((5 : ℚ), (5 : ℚ)) rfl (fun t ht => absurd ht (List.not_mem_nil t))⟩

lemma gridPitch_eq : gridSize * 2 = 32 := by norm_num [gridSize]

lemma snapPoint_40_40 : snapPoint 40 40 = ((16 : ℚ), (32 : ℚ)) := by
  norm_num [snapPoint, cppFmod, ratTrunc, gridSize]

lemma snapPoint_16_32 : snapPoint 16 32 = ((0 : ℚ), (32 : ℚ)) := by
  norm_num [snapPoint, cppFmod, ratTrunc, gridSize]

lemma specSnap_40_40 : specSnap (gridSize * 2) 40 40 = ((32 : ℚ), (32 : ℚ)) := by
  norm_num [specSnap, cppFmod, ratTrunc, gridSize]

/-- C1 counterexample: with pitch `gridSize * 2 = 32`, a left click at raw
(40,40) on the empty ground layer stores a tile at cell (16,32) — not at
(32,32), the floor of each raw coordinate to the nearest multiple of the
pitch — and the code's raw-to-cell snapping is not idempotent. -/
theorem c1_counterexample :
    (Game.processEventEditor
          ⟨false, [], [], false, (0, 0), [], true, false, false, 0, 0⟩
          (.mouseButtonDown SDL_BUTTON_LEFT 40 40)).2.map.map PlacedTile.pos ≠
      [((32 : ℚ), (32 : ℚ))] ∧
    snapPoint 40 40 ≠ specSnap (gridSize * 2) 40 40 ∧
    snapPoint (snapPoint 40 40).1 (snapPoint 40 40).2 ≠ snapPoint 40 40 := by
  refine ⟨?_, ?_, ?_⟩
  · have hmap : (Game.processEventEditor
          ⟨false, [], [], false, (0, 0), [], true, false, false, 0, 0⟩
          (.mouseButtonDown SDL_BUTTON_LEFT 40 40)).2.map.map PlacedTile.pos =
        [((16 : ℚ), (32 : ℚ))] := by
      simp [Game.processEventEditor, SDL_BUTTON_LEFT, eraseAt, snapPoint_40_40]
    rw [hmap]
    intro h
    have := congrArg (fun l => (l.headD (0, 0)).1) h
    norm_num at this
  · rw [snapPoint_40_40, specSnap_40_40]
    intro h
    have := congrArg Prod.fst h
    norm_num at this
  · rw [snapPoint_40_40]
    rw [show ((16 : ℚ), (32 : ℚ)).1 = (16 : ℚ) from rfl,
      show ((16 : ℚ), (32 : ℚ)).2 = (32 : ℚ) from rfl, snapPoint_16_32]
    intro h
    have := congrArg Prod.fst h
    norm_num at this

/-- C1 (amended): starting from empty ground and wall layers with the
ground layer selected, a left click at raw (40,40) with pitch 32 places
exactly one ground-layer entry at cell (16,32) — the cell given by
`((x - x mod 32) / 2, (y - y mod 32 + 32) / 2)` — a subsequent right click
at the same raw coordinates leaves the ground layer empty again, and the
raw-to-cell snapping is a pure deterministic function of the click
coordinates alone (it is, however, not idempotent). -/
theorem c1_snap_place_remove (s : GameState) (hmap : s.map = [])
    (hwallmap : s.mapWall = []) (hground : s.isWall = false) :
    snapPoint 40 40 = (16, 32) ∧
    (∀ x y : ℚ,
      snapPoint x y = ((x - cppFmod x 32) / 2, (y - cppFmod y 32 + 32) / 2)) ∧
    (Game.processEventEditor s (.mouseButtonDown SDL_BUTTON_LEFT 40 40)).2.map =
      [(⟨(16, 32), s.tileIndex, false⟩ : PlacedTile)] ∧
    (Game.processEventEditor s (.mouseButtonDown SDL_BUTTON_LEFT 40 40)).2.mapWall =
      [] ∧
    (Game.processEventEditor
        (Game.processEventEditor s (.mouseButtonDown SDL_BUTTON_LEFT 40 40)).2
        (.mouseButtonDown SDL_BUTTON_RIGHT 40 40)).2.map = [] := by
  have hsnap : snapPoint 40 40 = ((16 : ℚ), (32 : ℚ)) := snapPoint_40_40
  refine ⟨hsnap, fun x y => by rw [← gridPitch_eq]; rfl, ?_, ?_, ?_⟩
  · simp [Game.processEventEditor, SDL_BUTTON_LEFT, hground, hmap, eraseAt, hsnap]
  · simp [Game.processEventEditor, SDL_BUTTON_LEFT, hground, hwallmap]
  · simp [Game.processEventEditor, SDL_BUTTON_LEFT, SDL_BUTTON_RIGHT, hground,
      hmap, eraseAt, hsnap, PlacedTile.isSamePos]

theorem c1_snap_place_remove_witness :
    (⟨false, [], [], false, (0, 0), [], true, false, false, 0, 0⟩ : GameState).map
        = [] ∧
    (⟨false, [], [], false, (0, 0), [], true, false, false, 0, 0⟩ :
        GameState).mapWall = [] ∧
    (⟨false, [], [], false, (0, 0), [], true, false, false, 0, 0⟩ :
        GameState).isWall = false ∧
    (snapPoint 40 40 = (16, 32) ∧
      (∀ x y : ℚ,
        snapPoint x y = ((x - cppFmod x 32) / 2, (y - cppFmod y 32 + 32) / 2)) ∧
      (Game.processEventEditor
          ⟨false, [], [], false, (0, 0), [], true, false, false, 0, 0⟩
          (.mouseButtonDown SDL_BUTTON_LEFT 40 40)).2.map =
        [(⟨(16, 32),
            (⟨false, [], [], false, (0, 0), [], true, false, false, 0, 0⟩ :
                GameState).tileIndex, false⟩ : PlacedTile)] ∧
      (Game.processEventEditor
          ⟨false, [], [], false, (0, 0), [], true, false, false, 0, 0⟩
          (.mouseButtonDown SDL_BUTTON_LEFT 40 40)).2.mapWall = [] ∧
      (Game.processEventEditor
          (Game.processEventEditor
              ⟨false, [], [], false, (0, 0), [], true, false, false, 0, 0⟩
              (.mouseButtonDown SDL_BUTTON_LEFT 40 40)).2
          (.mouseButtonDown SDL_BUTTON_RIGHT 40 40)).2.map = []) :=
  ⟨rfl, rfl, rfl,
   c1_snap_place_remove
     ⟨false, [], [], false, (0, 0), [], true, false, false, 0, 0⟩ rfl rfl rfl⟩

lemma processEventEditor_consumed (s : GameState) (button : ℕ) (x y : ℚ)
    (hb : button = SDL_BUTTON_LEFT ∨ button = SDL_BUTTON_RIGHT) :
    (Game.processEventEditor s (.mouseButtonDown button x y)).1 = true := by
  rcases hb with hb | hb <;> subst hb <;>
    simp [Game.processEventEditor, SDL_BUTTON_LEFT, SDL_BUTTON_RIGHT, apply_ite]

/-- C10 (amended): in editor mode, a left or right mouse-button-down event
not claimed by the overlay UI is consumed by the editor and makes the
per-tick event loop return immediately: the events still pending behind it
are returned unprocessed as the remaining queue — this tick neither
processes nor drops them (the resulting state is independent of them). -/
theorem c10_editor_click_ends_tick (mousePos : ℚ × ℚ) (s : GameState) (e : Event)
    (rest : List Event) (button : ℕ) (x y : ℚ) (hmode : s.editorMode = true)
    (hclaim : e.guiClaimed = false)
    (hkind : e.kind = .mouseButtonDown button x y)
    (hbutton : button = SDL_BUTTON_LEFT ∨ button = SDL_BUTTON_RIGHT) :
    Game.processEvent mousePos (e :: rest) s =
      ((Game.processEventEditor
          { s with showTileSelector := true, tileCursorPos := cursorSnap mousePos }
          e.kind).2,
       rest) := by
  have hq : ∀ st : GameState,
      (Game.processEventEditor st (.mouseButtonDown button x y)).1 = true :=
    fun st => processEventEditor_consumed st button x y hbutton
  simp only [Game.processEvent, hclaim, hkind]
  simp [hmode, hq]

theorem c10_editor_click_ends_tick_witness :
    (⟨false, [], [], false, (0, 0), [], true, false, false, 0, 0⟩ :
        GameState).editorMode = true ∧
    (⟨.mouseButtonDown SDL_BUTTON_LEFT 40 40, false⟩ : Event).guiClaimed = false ∧
    (⟨.mouseButtonDown SDL_BUTTON_LEFT 40 40, false⟩ : Event).kind =
      .mouseButtonDown SDL_BUTTON_LEFT 40 40 ∧
    (SDL_BUTTON_LEFT = SDL_BUTTON_LEFT ∨ SDL_BUTTON_LEFT = SDL_BUTTON_RIGHT) ∧
    Game.processEvent (0, 0)
        [⟨.mouseButtonDown SDL_BUTTON_LEFT 40 40, false⟩, ⟨.quit, false⟩]
        ⟨false, [], [], false, (0, 0), [], true, false, false, 0, 0⟩ =
      ((Game.processEventEditor
          { (⟨false, [], [], false, (0, 0), [], true, false, false, 0, 0⟩ :
              GameState) with
            showTileSelector := true, tileCursorPos := cursorSnap (0, 0) }
          (⟨.mouseButtonDown SDL_BUTTON_LEFT 40 40, false⟩ : Event).kind).2,
       [⟨.quit, false⟩]) :=
  ⟨rfl, rfl, rfl, Or.inl rfl,
   c10_editor_click_ends_tick (0, 0)
     ⟨false, [], [], false, (0, 0), [], true, false, false, 0, 0⟩
     ⟨.mouseButtonDown SDL_BUTTON_LEFT 40 40, false⟩ [⟨.quit, false⟩]
     SDL_BUTTON_LEFT 40 40 rfl rfl rfl (Or.inl rfl)⟩

/-- C10 counterexample: in editor mode a consumed left click makes the loop
return with the pending quit event still in the queue and `done` still
false — the queue is deferred, not dropped: the next tick's loop processes
the retained quit event and raises `done`. -/
theorem c10_counterexample :
    (Game.processEvent (0, 0)
        [⟨.mouseButtonDown SDL_BUTTON_LEFT 40 40, false⟩, ⟨.quit, false⟩]
        ⟨false, [], [], false, (0, 0), [], true, false, false, 0, 0⟩).2 =
      [⟨.quit, false⟩] ∧
    (Game.processEvent (0, 0)
        [⟨.mouseButtonDown SDL_BUTTON_LEFT 40 40, false⟩, ⟨.quit, false⟩]
        ⟨false, [], [], false, (0, 0), [], true, false, false, 0, 0⟩).1.done =
      false ∧
    (Game.processEvent (0, 0)
        (Game.processEvent (0, 0)
            [⟨.mouseButtonDown SDL_BUTTON_LEFT 40 40, false⟩, ⟨.quit, false⟩]
            ⟨false, [], [], false, (0, 0), [], true, false, false, 0, 0⟩).2
        (Game.processEvent (0, 0)
            [⟨.mouseButtonDown SDL_BUTTON_LEFT 40 40, false⟩, ⟨.quit, false⟩]
            ⟨false, [], [], false, (0, 0), [], true, false, false, 0, 0⟩).1).1.done =
      true := by
  refine ⟨?_, ?_, ?_⟩ <;>
    simp [Game.processEvent, Game.processEventEditor, Game.processEventCharacter,
      SDL_BUTTON_LEFT, SDL_BUTTON_RIGHT, cursorSnap, eraseAt]

/-! ## Draw-order resolution (`Game::frame` and `Game::showMap`) -/

/-- The wall-layer ordering used by `Game::frame` (src/game.cpp:317-319):
`std::ranges::sort(mapWall_, [](lhs, rhs){ return lhs->getPos().y < rhs->getPos().y; })`
produces a sequence ascending in the vertical coordinate. -/
def wallLe (a b : PlacedTile) : Prop := a.pos.2 ≤ b.pos.2

instance : DecidableRel wallLe := fun a b =>
  inferInstanceAs (Decidable (a.pos.2 ≤ b.pos.2))

instance : IsTotal PlacedTile wallLe := ⟨fun a b => le_total a.pos.2 b.pos.2⟩

instance : IsTrans PlacedTile wallLe := ⟨fun _ _ _ => le_trans⟩

/-- The behavioral contract of the per-frame wall re-sort
`std::ranges::sort(mapWall_, lhs.y < rhs.y)` (src/game.cpp:317-319):
`std::ranges::sort` guarantees only that the result is a permutation of
the input that is ascending in the comparator's key — here the vertical
coordinate — and leaves the relative order of equal-key elements
unspecified. `SortsTo l out` states that `out` is an admissible result of
sorting `l`. -/
def SortsTo (l out : List PlacedTile) : Prop :=
  out.Perm l ∧ List.Sorted wallLe out

/-- One element of the draw sequence issued by `Game::showMap`: a tile draw
or the player-character draw. -/
inductive DrawEvent
  | tile (t : PlacedTile)
  | character
deriving DecidableEq, Repr

/-- The wall loop of `Game::showMap` (src/game.cpp:466-477): walk the wall
tiles; before the first tile whose vertical key exceeds the character's,
draw the character once (guarded by `crendered`); if never exceeded, draw
the character after the loop. `key` extracts the tile's vertical
coordinate in the order the character's is compared in. -/
def wallPass {α : Type} [LinearOrder α] (key : PlacedTile → α) (charY : α) :
    List PlacedTile → Bool → List DrawEvent
  | [], crendered => if crendered then [] else [DrawEvent.character]
  | t :: rest, crendered =>
    if crendered = false ∧ charY < key t then
      DrawEvent.character :: DrawEvent.tile t :: wallPass key charY rest true
    else
      DrawEvent.tile t :: wallPass key charY rest crendered

/-- `Game::showMap` (src/game.cpp:457-478) as a draw sequence: all ground
tiles first, in layer order, then the wall tiles interleaved with the
single character draw. -/
def showMapSeq {α : Type} [LinearOrder α] (key : PlacedTile → α)
    (ground walls : List PlacedTile) (charY : α) : List DrawEvent :=
  ground.map DrawEvent.tile ++ wallPass key charY walls false

lemma wallPass_true {α : Type} [LinearOrder α] (key : PlacedTile → α) (charY : α)
    (l : List PlacedTile) : wallPass key charY l true = l.map DrawEvent.tile := by
  induction l with
  | nil => rfl
  | cons t rest ih => simp [wallPass, ih]

lemma wallPass_false {α : Type} [LinearOrder α] (key : PlacedTile → α) (charY : α)
    (l : List PlacedTile) :
    wallPass key charY l false =
      (l.takeWhile fun t => decide (key t ≤ charY)).map DrawEvent.tile ++
        DrawEvent.character ::
          (l.dropWhile fun t => decide (key t ≤ charY)).map DrawEvent.tile := by
  induction l with
  | nil => rfl
  | cons t rest ih =>
    by_cases h : charY < key t
    · have hna : ¬ key t ≤ charY := not_le.mpr h
      simp [wallPass, h, wallPass_true, List.takeWhile_cons, List.dropWhile_cons, hna]
    · have ha : key t ≤ charY := not_lt.mp h
      simp [wallPass, h, ih, List.takeWhile_cons, List.dropWhile_cons, ha]

/-- When the input's vertical coordinates are pairwise distinct, the sort
contract determines its result: any ascending permutation of a sorted
list with no duplicate keys is that list itself. -/
lemma sortsTo_eq_of_sorted_nodup :
    ∀ (walls out : List PlacedTile), out.Perm walls → List.Sorted wallLe out →
      List.Sorted wallLe walls → (walls.map fun t => t.pos.2).Nodup → out = walls
  | [], _, hp, _, _, _ => hp.eq_nil
  | b :: walls', out, hp, hso, hsw, hnd => by
    rw [List.map_cons] at hnd
    cases out with
    | nil => exact absurd hp.symm.eq_nil (List.cons_ne_nil _ _)
    | cons a out' =>
      have hmemA : a ∈ b :: walls' := hp.subset (List.mem_cons_self a out')
      have hmemB : b ∈ a :: out' := hp.symm.subset (List.mem_cons_self b walls')
      have hy : a.pos.2 = b.pos.2 := by
        rcases List.mem_cons.mp hmemA with h | h
        · rw [h]
        · have h1 : b.pos.2 ≤ a.pos.2 := List.rel_of_sorted_cons hsw a h
          rcases List.mem_cons.mp hmemB with h2 | h2
          · rw [h2]
          · exact le_antisymm (List.rel_of_sorted_cons hso b h2) h1
      have hab : a = b := by
        rcases List.mem_cons.mp hmemA with h | h
        · exact h
        · exfalso
          have hmy : a.pos.2 ∈ walls'.map fun t => t.pos.2 :=
            List.mem_map_of_mem _ h
          rw [hy] at hmy
          exact (List.nodup_cons.mp hnd).1 hmy
      subst hab
      have htl := sortsTo_eq_of_sorted_nodup walls' out' hp.cons_inv hso.of_cons
        hsw.of_cons (List.nodup_cons.mp hnd).2
      rw [htl]

/-- C4 counterexample: the claim's "sorting an already-sorted wall list
yields the same sequence" is not guaranteed by the code: the wall layer
can hold two tiles with equal vertical coordinate (one grid row, two
cells), the list of them is already sorted, and the contract of
`std::ranges::sort` (ascending permutation, tie order unspecified) admits
the reversed list — a different sequence — as the result of re-sorting
it. -/
theorem c4_counterexample :
    List.Sorted wallLe
      [(⟨(0, 1), 0, false⟩ : PlacedTile), (⟨(1, 1), 1, false⟩ : PlacedTile)] ∧
    SortsTo [(⟨(0, 1), 0, false⟩ : PlacedTile), (⟨(1, 1), 1, false⟩ : PlacedTile)]
      [(⟨(1, 1), 1, false⟩ : PlacedTile), (⟨(0, 1), 0, false⟩ : PlacedTile)] ∧
    [(⟨(1, 1), 1, false⟩ : PlacedTile), (⟨(0, 1), 0, false⟩ : PlacedTile)] ≠
      [(⟨(0, 1), 0, false⟩ : PlacedTile), (⟨(1, 1), 1, false⟩ : PlacedTile)] ∧
    ¬ (∀ out : List PlacedTile,
        SortsTo [(⟨(0, 1), 0, false⟩ : PlacedTile),
          (⟨(1, 1), 1, false⟩ : PlacedTile)] out →
        out = [(⟨(0, 1), 0, false⟩ : PlacedTile),
          (⟨(1, 1), 1, false⟩ : PlacedTile)]) := by
  have hsorted : List.Sorted wallLe
      [(⟨(0, 1), 0, false⟩ : PlacedTile), (⟨(1, 1), 1, false⟩ : PlacedTile)] := by
    refine List.sorted_cons.mpr ⟨?_, List.sorted_singleton _⟩
    intro c hc
    simp only [List.mem_singleton] at hc
    subst hc
    show ((1 : ℚ) ≤ 1)
    exact le_rfl
  have hsorted' : List.Sorted wallLe
      [(⟨(1, 1), 1, false⟩ : PlacedTile), (⟨(0, 1), 0, false⟩ : PlacedTile)] := by
    refine List.sorted_cons.mpr ⟨?_, List.sorted_singleton _⟩
    intro c hc
    simp only [List.mem_singleton] at hc
    subst hc
    show ((1 : ℚ) ≤ 1)
    exact le_rfl
  have hsw : SortsTo
      [(⟨(0, 1), 0, false⟩ : PlacedTile), (⟨(1, 1), 1, false⟩ : PlacedTile)]
      [(⟨(1, 1), 1, false⟩ : PlacedTile), (⟨(0, 1), 0, false⟩ : PlacedTile)] :=
    ⟨List.Perm.swap _ _ _, hsorted'⟩
  have hne : [(⟨(1, 1), 1, false⟩ : PlacedTile), (⟨(0, 1), 0, false⟩ : PlacedTile)] ≠
      [(⟨(0, 1), 0, false⟩ : PlacedTile), (⟨(1, 1), 1, false⟩ : PlacedTile)] := by
    intro h
    have := congrArg (fun l => (l.headD ⟨(0, 0), 0, false⟩).tileIdx) h
    simp at this
  exact ⟨hsorted, hsw, hne, fun hall => hne (hall _ hsw)⟩

/-- C4 (amended): every frame the wall layer is re-sorted before drawing,
and every admissible result of `std::ranges::sort` under its contract —
any input, including one freshly changed by inserts/removes — is a
permutation of the wall list ascending in the vertical coordinate (the
contract is satisfiable, e.g. by an insertion sort); sorting an
already-sorted wall list is guaranteed to reproduce the same sequence
exactly when no two wall tiles share a vertical coordinate (with ties the
contract admits a reordering of the equal-coordinate tiles); the ground
layer is drawn first, in layer order; and the character is drawn exactly
once — immediately before the first wall tile (in the sorted order) whose
vertical coordinate strictly exceeds the character's, or after all wall
tiles when none does. -/
theorem c4_wall_sort_and_interleave (ground walls out : List PlacedTile)
    (charY : ℚ) (hout : SortsTo walls out) :
    List.Sorted wallLe out ∧
    out.Perm walls ∧
    SortsTo walls (List.insertionSort wallLe walls) ∧
    ((List.Sorted wallLe walls ∧ (walls.map fun t => t.pos.2).Nodup) →
      out = walls) ∧
    showMapSeq (fun t => t.pos.2) ground out charY =
      ground.map DrawEvent.tile ++
        (out.takeWhile fun t => decide (t.pos.2 ≤ charY)).map DrawEvent.tile ++
        DrawEvent.character ::
          (out.dropWhile fun t => decide (t.pos.2 ≤ charY)).map DrawEvent.tile ∧
    (showMapSeq (fun t => t.pos.2) ground out charY).countP
        (fun e => decide (e = DrawEvent.character)) = 1 := by
  obtain ⟨hperm, hsorted⟩ := hout
  have hshow : showMapSeq (fun t => t.pos.2) ground out charY =
      ground.map DrawEvent.tile ++
        (out.takeWhile fun t => decide (t.pos.2 ≤ charY)).map DrawEvent.tile ++
        DrawEvent.character ::
          (out.dropWhile fun t => decide (t.pos.2 ≤ charY)).map DrawEvent.tile := by
    simp only [showMapSeq, wallPass_false, List.append_assoc]
  refine ⟨hsorted, hperm,
    ⟨List.perm_insertionSort wallLe walls, List.sorted_insertionSort wallLe walls⟩,
    fun h => sortsTo_eq_of_sorted_nodup walls out hperm hsorted h.1 h.2,
    hshow, ?_⟩
  rw [hshow]
  simp [List.countP_append, List.countP_cons, List.countP_map, Function.comp_def]

theorem c4_wall_sort_and_interleave_witness :
    SortsTo [(⟨(0, 2), 1, false⟩ : PlacedTile), (⟨(0, 1), 0, false⟩ : PlacedTile)]
      [(⟨(0, 1), 0, false⟩ : PlacedTile), (⟨(0, 2), 1, false⟩ : PlacedTile)] ∧
    (List.Sorted wallLe
        [(⟨(0, 1), 0, false⟩ : PlacedTile), (⟨(0, 2), 1, false⟩ : PlacedTile)] ∧
      List.Perm
        [(⟨(0, 1), 0, false⟩ : PlacedTile), (⟨(0, 2), 1, false⟩ : PlacedTile)]
        [(⟨(0, 2), 1, false⟩ : PlacedTile), (⟨(0, 1), 0, false⟩ : PlacedTile)] ∧
      SortsTo
        [(⟨(0, 2), 1, false⟩ : PlacedTile), (⟨(0, 1), 0, false⟩ : PlacedTile)]
        (List.insertionSort wallLe
          [(⟨(0, 2), 1, false⟩ : PlacedTile), (⟨(0, 1), 0, false⟩ : PlacedTile)]) ∧
      ((List.Sorted wallLe
            [(⟨(0, 2), 1, false⟩ : PlacedTile), (⟨(0, 1), 0, false⟩ : PlacedTile)] ∧
          (List.map (fun t => t.pos.2)
              [(⟨(0, 2), 1, false⟩ : PlacedTile),
                (⟨(0, 1), 0, false⟩ : PlacedTile)]).Nodup) →
        [(⟨(0, 1), 0, false⟩ : PlacedTile), (⟨(0, 2), 1, false⟩ : PlacedTile)] =
          [(⟨(0, 2), 1, false⟩ : PlacedTile), (⟨(0, 1), 0, false⟩ : PlacedTile)]) ∧
      showMapSeq (fun t => t.pos.2) []
          [(⟨(0, 1), 0, false⟩ : PlacedTile), (⟨(0, 2), 1, false⟩ : PlacedTile)]
          (3 / 2) =
        List.map DrawEvent.tile ([] : List PlacedTile) ++
          (([(⟨(0, 1), 0, false⟩ : PlacedTile),
                (⟨(0, 2), 1, false⟩ : PlacedTile)].takeWhile
              fun t => decide (t.pos.2 ≤ (3 / 2 : ℚ))).map DrawEvent.tile) ++
          DrawEvent.character ::
            (([(⟨(0, 1), 0, false⟩ : PlacedTile),
                  (⟨(0, 2), 1, false⟩ : PlacedTile)].dropWhile
                fun t => decide (t.pos.2 ≤ (3 / 2 : ℚ))).map DrawEvent.tile) ∧
      (showMapSeq (fun t => t.pos.2) []
            [(⟨(0, 1), 0, false⟩ : PlacedTile), (⟨(0, 2), 1, false⟩ : PlacedTile)]
            (3 / 2)).countP (fun e => decide (e = DrawEvent.character)) = 1) :=
  ⟨⟨List.Perm.swap _ _ _, by
      refine List.sorted_cons.mpr ⟨?_, List.sorted_singleton _⟩
      intro c hc
      simp only [List.mem_singleton] at hc
      subst hc
      show ((1 : ℚ) ≤ 2)
      norm_num⟩,
   c4_wall_sort_and_interleave []
     [(⟨(0, 2), 1, false⟩ : PlacedTile), (⟨(0, 1), 0, false⟩ : PlacedTile)]
     [(⟨(0, 1), 0, false⟩ : PlacedTile), (⟨(0, 2), 1, false⟩ : PlacedTile)] (3 / 2)
     ⟨List.Perm.swap _ _ _, by
       refine List.sorted_cons.mpr ⟨?_, List.sorted_singleton _⟩
       intro c hc
       simp only [List.mem_singleton] at hc
       subst hc
       show ((1 : ℚ) ≤ 2)
       norm_num⟩⟩

/-! ## Character movement (`src/game.cpp`, `Rad`, `PolarVec`, `Vec`,
`Character`) — machine floats modelled by `ℝ`. -/

/-- `Rad` (src/game.cpp:38-45). -/
structure Rad where
  value : ℝ

/-- `Rad::fromDeg` (src/game.cpp:42-44): multiply by π/180. -/
noncomputable def Rad.fromDeg (deg : ℝ) : Rad := ⟨deg * (Real.pi / 180)⟩

/-- `PolarVec` (src/game.cpp:47-50). -/
structure PolarVec where
  radius : ℝ
  angle : Rad

/-- `Vec` (src/game.cpp:52-59). -/
structure Vec where
  x : ℝ
  y : ℝ

/-- The converting constructor `Vec(const PolarVec&)` (src/game.cpp:53-55):
`x = radius * cos(angle)`, `y = radius * sin(angle)`. -/
noncomputable def Vec.ofPolar (other : PolarVec) : Vec :=
  ⟨other.radius * Real.cos other.angle.value,
   other.radius * Real.sin other.angle.value⟩

/-- `Point` (src/game.cpp:61-76). -/
structure Point where
  x : ℝ
  y : ℝ

/-- `Point::operator+=` (src/game.cpp:66-70). -/
def Point.addVec (p : Point) (v : Vec) : Point := ⟨p.x + v.x, p.y + v.y⟩

/-- `Character` (src/game.cpp:102-121): a position and a polar velocity. -/
structure Character where
  pos : Point
  vec : PolarVec

namespace Character

/-- `Character::speed` (src/game.cpp:116). -/
noncomputable def speed : ℝ := 0.06

/-- `Character::updateAngle` (src/game.cpp:106). -/
def updateAngle (c : Character) (newAngle : Rad) : Character :=
  { c with vec := { c.vec with angle := newAngle } }

/-- `Character::updateSpeed` (src/game.cpp:107). -/
def updateSpeed (c : Character) (newSpeed : ℝ) : Character :=
  { c with vec := { c.vec with radius := newSpeed } }

/-- `Character::update` (src/game.cpp:109-113): displace the position by
the polar vector of magnitude `deltaTime * radius` at the current angle. -/
noncomputable def update (c : Character) (deltaTime : ℕ) : Character :=
  { c with
    pos := c.pos.addVec (Vec.ofPolar ⟨(deltaTime : ℝ) * c.vec.radius, c.vec.angle⟩) }

end Character

/-- C8: one update step over elapsed time `t` at speed `s` and angle `θ`
displaces the position by exactly `dx = s·t·cos θ`, `dy = s·t·sin θ`
(polar-to-Cartesian decomposition); in particular at `θ = 45°` both
displacements equal `s·t·(√2/2)`. Exact in the real-valued model of the
float arithmetic. -/
theorem c8_polar_update (p : Point) (s θ : ℝ) (t : ℕ) :
    (Character.update ⟨p, ⟨s, ⟨θ⟩⟩⟩ t).pos.x = p.x + s * t * Real.cos θ ∧
    (Character.update ⟨p, ⟨s, ⟨θ⟩⟩⟩ t).pos.y = p.y + s * t * Real.sin θ ∧
    (Character.update ⟨p, ⟨s, Rad.fromDeg 45⟩⟩ t).pos.x =
      p.x + s * t * (Real.sqrt 2 / 2) ∧
    (Character.update ⟨p, ⟨s, Rad.fromDeg 45⟩⟩ t).pos.y =
      p.y + s * t * (Real.sqrt 2 / 2) := by
  have h45 : (45 : ℝ) * (Real.pi / 180) = Real.pi / 4 := by ring
  refine ⟨?_, ?_, ?_, ?_⟩ <;>
    simp only [Character.update, Point.addVec, Vec.ofPolar, Rad.fromDeg, h45,
      Real.cos_pi_div_four, Real.sin_pi_div_four] <;>
    ring

/-! ## Frame pacing (`Game::frame`, src/game.cpp:292-335) -/

/-- `Game::minFrameDuration` (src/game.cpp:173): `1000 / 30` in integer
milliseconds. -/
def minFrameDuration : ℕ := 1000 / 30

/-- `Game::minimizedDelay` (src/game.cpp:174). -/
def minimizedDelay : ℕ := 10

/-- The instantaneous keyboard snapshot read by `Game::checkKeys`. -/
structure Keys where
  up : Bool
  down : Bool
  left : Bool
  right : Bool

/-- Apply `f` to the selected character sprite (`characters_[index]`). -/
def withSelChar (s : GameState) (f : CharacterSprite → CharacterSprite) : GameState :=
  { s with characters := modifyAt s.characters s.characterIndex f }

/-- Modelled from the spec: the evolved sprite module used by `game.cpp`
has a zero-argument `setRunning()` overload not present in
`src/sprite.cpp`; modelled as entering the Running state with the facing
direction unchanged. -/
def CharacterSprite.setRunningKeep (s : CharacterSprite) : CharacterSprite :=
  { s with running := true }

/-- `Game::checkKeys` (src/game.cpp:415-455): map the arrow-key snapshot to
the player's speed and angle (in degrees: 0/45/90/135/180/225/270/315) and
to the selected character's running/idle state; with no key held the speed
is zeroed and the character set idle. -/
noncomputable def checkKeys (keys : Keys) (player : Character) (s : GameState) :
    Character × GameState :=
  if keys.up then
    let p := player.updateSpeed Character.speed
    if keys.left then
      (p.updateAngle (Rad.fromDeg 135), withSelChar s (fun c => c.setRunning true))
    else if keys.right then
      (p.updateAngle (Rad.fromDeg 45), withSelChar s (fun c => c.setRunning false))
    else
      (p.updateAngle (Rad.fromDeg 90), withSelChar s CharacterSprite.setRunningKeep)
  else if keys.down then
    let p := player.updateSpeed Character.speed
    if keys.left then
      (p.updateAngle (Rad.fromDeg 225), withSelChar s (fun c => c.setRunning true))
    else if keys.right then
      (p.updateAngle (Rad.fromDeg 315), withSelChar s (fun c => c.setRunning false))
    else
      (p.updateAngle (Rad.fromDeg 270), withSelChar s CharacterSprite.setRunningKeep)
  else if keys.left then
    ((player.updateSpeed Character.speed).updateAngle (Rad.fromDeg 180),
     withSelChar s (fun c => c.setRunning true))
  else if keys.right then
    ((player.updateSpeed Character.speed).updateAngle (Rad.fromDeg 0),
     withSelChar s (fun c => c.setRunning false))
  else
    (player.updateSpeed 0, withSelChar s CharacterSprite.setIdle)

/-- The per-tick state of `Game` that `Game::frame` touches: the pacing
fields `last_` and `frameCount_`, the event/editor state and the player. -/
structure FrameState where
  last : ℕ
  frameCount : ℕ
  game : GameState
  player : Character

/-- What one call to `Game::frame` did: whether draw calls were issued and
the frame presented, how long `SDL_Delay` slept, whether the event queue
was polled, and the draw sequence from `Game::showMap`. -/
structure FrameOutput where
  rendered : Bool
  sleptMs : ℕ
  polledInput : Bool
  drawSeq : List DrawEvent

/-- `Game::frame` (src/game.cpp:292-335). Read the elapsed time since the
last accepted tick; below `minFrameDuration` return with no work. On an
accepted tick, record `last_` and increment `frameCount_` first; then when
the window is minimized, sleep `minimizedDelay` and return without
rendering or polling input. Otherwise poll all pending events, evaluate
the key snapshot, advance the player by the elapsed time, re-sort the wall
layer, and issue the `showMap` draw sequence (the character interleaved at
the player's vertical coordinate) before presenting. The wall re-sort is
realised here by one admissible implementation of the
`std::ranges::sort` contract (an insertion sort; the pacing claims proved
about `frame` do not depend on which admissible tie order it picks — the
contract itself is `SortsTo`). The ground layer's pointer-identity sort
(`std::ranges::sort(map_)`) reorders by allocation address, constant
during a run; it is modelled as the identity on the layer list. The
overlay UI and enemy-preview draws are external and not part of the
modelled draw sequence. -/
noncomputable def Game.frame (now : ℕ) (minimized : Bool) (events : List Event)
    (mousePos : ℚ × ℚ) (keys : Keys) (st : FrameState) : FrameState × FrameOutput :=
  let fps := now - st.last
  if minFrameDuration ≤ fps then
    let st1 : FrameState := { st with last := now, frameCount := st.frameCount + 1 }
    if minimized then
      (st1, ⟨false, minimizedDelay, false, []⟩)
    else
      let g1 := (Game.processEvent mousePos events st1.game).1
      let ck := checkKeys keys st1.player g1
      let player2 := ck.1.update fps
      let g2 := ck.2
      let wallsSorted := List.insertionSort wallLe g2.mapWall
      let drawSeq := showMapSeq (fun t => ((t.pos.2 : ℚ) : ℝ)) g2.map wallsSorted
        player2.pos.y
      ({ st1 with game := { g2 with mapWall := wallsSorted }, player := player2 },
       ⟨true, 0, true, drawSeq⟩)
  else
    (st, ⟨false, 0, false, []⟩)

/-- C2 (amended): a tick with elapsed time under the minimum frame interval
does no work and changes no state; an accepted tick increments the global
frame counter unconditionally — before the minimized check, so also on
minimized ticks, not only in the full branch; when minimized the tick
sleeps the fixed delay, skips rendering, does not evaluate input and
leaves the rest of the state (the `done` flag included) unchanged, so
`done` can still be raised externally; the full branch polls input,
renders and presents. -/
theorem c2_frame_pacing (now : ℕ) (minimized : Bool) (events : List Event)
    (mousePos : ℚ × ℚ) (keys : Keys) (st : FrameState) :
    (now - st.last < minFrameDuration →
      Game.frame now minimized events mousePos keys st =
        (st, ⟨false, 0, false, []⟩)) ∧
    (minFrameDuration ≤ now - st.last → minimized = true →
      Game.frame now minimized events mousePos keys st =
        ({ st with last := now, frameCount := st.frameCount + 1 },
         ⟨false, minimizedDelay, false, []⟩)) ∧
    (minFrameDuration ≤ now - st.last → minimized = false →
      ((Game.frame now minimized events mousePos keys st).1.frameCount =
          st.frameCount + 1 ∧
        (Game.frame now minimized events mousePos keys st).2.rendered = true ∧
        (Game.frame now minimized events mousePos keys st).2.polledInput = true)) := by
  refine ⟨fun hlt => ?_, fun hge hmin => ?_, fun hge hmin => ?_⟩
  · rw [Game.frame.eq_def]
    simp [Nat.not_le.mpr hlt]
  · rw [Game.frame.eq_def]
    simp [hge, hmin]
  · rw [Game.frame.eq_def]
    simp [hge, hmin]

theorem c2_frame_pacing_witness :
    ((10 : ℕ) - 0 < minFrameDuration ∧
      Game.frame 10 false [] (0, 0) ⟨false, false, false, false⟩
          ⟨0, 0, ⟨false, [], [], false, (0, 0), [], true, false, false, 0, 0⟩,
            ⟨⟨100, 100⟩, ⟨0, ⟨0⟩⟩⟩⟩ =
        (⟨0, 0, ⟨false, [], [], false, (0, 0), [], true, false, false, 0, 0⟩,
            ⟨⟨100, 100⟩, ⟨0, ⟨0⟩⟩⟩⟩,
         ⟨false, 0, false, []⟩)) ∧
    (minFrameDuration ≤ (33 : ℕ) - 0 ∧
      Game.frame 33 true [] (0, 0) ⟨false, false, false, false⟩
          ⟨0, 0, ⟨false, [], [], false, (0, 0), [], true, false, false, 0, 0⟩,
            ⟨⟨100, 100⟩, ⟨0, ⟨0⟩⟩⟩⟩ =
        (⟨33, 1, ⟨false, [], [], false, (0, 0), [], true, false, false, 0, 0⟩,
            ⟨⟨100, 100⟩, ⟨0, ⟨0⟩⟩⟩⟩,
         ⟨false, minimizedDelay, false, []⟩)) :=
  ⟨⟨by norm_num [minFrameDuration],
    (c2_frame_pacing 10 false [] (0, 0) ⟨false, false, false, false⟩
        ⟨0, 0, ⟨false, [], [], false, (0, 0), [], true, false, false, 0, 0⟩,
          ⟨⟨100, 100⟩, ⟨0, ⟨0⟩⟩⟩⟩).1
      (by norm_num [minFrameDuration])⟩,
   ⟨by norm_num [minFrameDuration],
    (c2_frame_pacing 33 true [] (0, 0) ⟨false, false, false, false⟩
        ⟨0, 0, ⟨false, [], [], false, (0, 0), [], true, false, false, 0, 0⟩,
          ⟨⟨100, 100⟩, ⟨0, ⟨0⟩⟩⟩⟩).2.1
      (by norm_num [minFrameDuration]) rfl⟩⟩

/-- C2 counterexample: on a minimized accepted tick the global frame
counter is still incremented even though nothing is rendered and no input
is polled — the counter is not incremented only in the full
poll-render-present branch. -/
theorem c2_counterexample :
    (Game.frame 33 true [] (0, 0) ⟨false, false, false, false⟩
        ⟨0, 0, ⟨false, [], [], false, (0, 0), [], true, false, false, 0, 0⟩,
          ⟨⟨100, 100⟩, ⟨0, ⟨0⟩⟩⟩⟩).1.frameCount = 1 ∧
    (Game.frame 33 true [] (0, 0) ⟨false, false, false, false⟩
        ⟨0, 0, ⟨false, [], [], false, (0, 0), [], true, false, false, 0, 0⟩,
          ⟨⟨100, 100⟩, ⟨0, ⟨0⟩⟩⟩⟩).2.rendered = false ∧
    (Game.frame 33 true [] (0, 0) ⟨false, false, false, false⟩
        ⟨0, 0, ⟨false, [], [], false, (0, 0), [], true, false, false, 0, 0⟩,
          ⟨⟨100, 100⟩, ⟨0, ⟨0⟩⟩⟩⟩).2.polledInput = false := by
  rw [Game.frame.eq_def]
  norm_num [minFrameDuration]

end Cpp20Test
